import Mathlib

/-!
Verification development for the Wasmer runtime core.

Shallow embedding of:
* `lib/compiler/src/translator/middleware.rs` (the middleware binary reader),
* `lib/wasix/src/runtime/resolver/wapm_source.rs` (registry query + disk cache),
* `lib/api/src/js/as_js.rs` (host/backend value and extern conversion),
* `lib/wasix/src/bin_factory/binary_package.rs` (binary package hashes).

External collaborators (the `wasmparser` bytecode decoder, the `semver`
crate's constraint matching, SHA-256, serde/JSON, the browser's JS engine)
are modelled as oracle streams or oracle functions: the code under
verification never inspects their internals, it only branches on their
results, and those branch structures are translated faithfully.
-/

/-- Decidable equality for `Except`, used to evaluate concrete runs. -/
instance {ε α : Type} [DecidableEq ε] [DecidableEq α] : DecidableEq (Except ε α) :=
  fun a b =>
    match a, b with
    | .ok x, .ok y => decidable_of_iff (x = y) (by simp)
    | .error x, .error y => decidable_of_iff (x = y) (by simp)
    | .ok _, .error _ => isFalse (by simp)
    | .error _, .ok _ => isFalse (by simp)

namespace Middleware

/-- Locals type read by `read_local_decl` (`wasmparser::Type`). -/
inductive WpType
  | i32 | i64 | f32 | f64 | v128 | funcref | externref
deriving DecidableEq, Repr

/-- Errors returned by reads (`wasmer_types::WasmError`): decoder errors are
mapped by `from_binaryreadererror_wasmerror` into `InvalidWebAssembly`, and a
stage abort is a `MiddlewareError` with a name and a message. -/
inductive WasmError
  | invalidWebAssembly (message : String)
  | middlewareError (name message : String)
deriving DecidableEq, Repr

/-- The decoder error produced when reading past the end of the stream. -/
def WasmError.eof : WasmError := .invalidWebAssembly "unexpected end-of-file"

/-- A stage abort (`wasmer_types::MiddlewareError`). -/
structure MiddlewareError where
  name : String
  message : String
deriving DecidableEq, Repr

/-- The decoded view of a function-body byte slice: the `wasmparser`
decoder is external (an explicit non-goal of the repository), so the raw
`BinaryReader` is modelled as the stream of results its successive read
calls produce over those bytes: the locals-count varuint, the local
declarations (count/type pairs), and the operator stream. Operators are
opaque (`Op` is a type parameter). -/
structure FuncBody (Op : Type) where
  localCountItem : Except WasmError Nat
  declItems : List (Except WasmError (Nat × WpType))
  opItems : List (Except WasmError Op)

/-- The raw `wasmparser::BinaryReader`, holding the remaining stream and the
original offset it was constructed with. -/
structure BinaryReader (Op : Type) where
  localCountItem : Except WasmError Nat
  declItems : List (Except WasmError (Nat × WpType))
  opItems : List (Except WasmError Op)
  originalOffset : Nat

/-- `BinaryReader::new_with_offset`. -/
def BinaryReader.new_with_offset (data : FuncBody Op) (offset : Nat) :
    BinaryReader Op :=
  { localCountItem := data.localCountItem
    declItems := data.declItems
    opItems := data.opItems
    originalOffset := offset }

/-- `BinaryReader::read_operator`: yield the next operator result; reading an
exhausted stream is a decode error. -/
def BinaryReader.read_operator (r : BinaryReader Op) :
    Except WasmError Op × BinaryReader Op :=
  match r.opItems with
  | [] => (.error .eof, r)
  | item :: rest => (item, { r with opItems := rest })

/-- The result sequence of `n` successive `read_operator` calls on the raw
reader. -/
def BinaryReader.readResults (r : BinaryReader Op) : Nat → List (Except WasmError Op)
  | 0 => []
  | n + 1 => (r.read_operator).1 :: (r.read_operator).2.readResults n

/-- A per-function middleware stage (`FunctionMiddleware` trait object).
`st` is the stage's private state (the Rust trait object's `self`); `feed`
returns the operators the stage pushes through
`MiddlewareReaderState::push_operator` (in push order), or a middleware
abort. The chain in the source is a vector of boxed trait objects; here a
chain is a list of stages sharing a state type `σ`, with `σ` universally
quantified in every theorem. -/
structure Stage (Op σ : Type) where
  st : σ
  locals_info : σ → List WpType → σ
  feed : σ → Op → Except MiddlewareError (σ × List Op)

/-- `MiddlewareReaderState`: the backing raw reader, the pending-operator
FIFO, and the locals bookkeeping. -/
structure MiddlewareReaderState (Op : Type) where
  inner : BinaryReader Op
  pending_operations : List Op
  local_decls : Nat
  local_decls_read : Nat
  locals : List WpType

/-- `MiddlewareBinaryReader`: parsing state plus the backing middleware
chain. -/
structure MiddlewareBinaryReader (Op σ : Type) where
  state : MiddlewareReaderState Op
  chain : List (Stage Op σ)

namespace MiddlewareBinaryReader

/-- `MiddlewareBinaryReader::new_with_offset`. -/
def new_with_offset (σ : Type) (data : FuncBody Op) (original_offset : Nat) :
    MiddlewareBinaryReader Op σ :=
  { state :=
      { inner := BinaryReader.new_with_offset data original_offset
        pending_operations := []
        local_decls := 0
        local_decls_read := 0
        locals := [] }
    chain := [] }

/-- `MiddlewareBinaryReader::set_middleware_chain`. -/
def set_middleware_chain (r : MiddlewareBinaryReader Op σ)
    (stages : List (Stage Op σ)) : MiddlewareBinaryReader Op σ :=
  { r with chain := stages }

/-- `MiddlewareBinaryReader::emit_locals_info`: call `locals_info` on every
stage of the chain with the accumulated locals. -/
def emit_locals_info (r : MiddlewareBinaryReader Op σ) :
    MiddlewareBinaryReader Op σ :=
  { r with
    chain := r.chain.map fun s => { s with st := s.locals_info s.st r.state.locals } }

/-- `MiddlewareBinaryReader::read_local_count`: forward the varuint read,
record the total, and emit `locals_info` immediately when it is zero. -/
def read_local_count (r : MiddlewareBinaryReader Op σ) :
    Except WasmError Nat × MiddlewareBinaryReader Op σ :=
  match r.state.inner.localCountItem with
  | .error e => (.error e, r)
  | .ok total =>
    let r' := { r with state := { r.state with local_decls := total } }
    if total = 0 then (.ok total, r'.emit_locals_info)
    else (.ok total, r')

/-- `MiddlewareBinaryReader::read_local_decl`: forward the count/type read,
append `count` copies of the type to the locals vector, and emit
`locals_info` when the last declared local has been read. -/
def read_local_decl (r : MiddlewareBinaryReader Op σ) :
    Except WasmError (Nat × WpType) × MiddlewareBinaryReader Op σ :=
  match r.state.inner.declItems with
  | [] => (.error .eof, r)
  | item :: rest =>
    let r := { r with state := { r.state with inner := { r.state.inner with declItems := rest } } }
    match item with
    | .error e => (.error e, r)
    | .ok (count, ty) =>
      let r :=
        { r with state :=
            { r.state with
              locals := r.state.locals ++ List.replicate count ty
              local_decls_read := r.state.local_decls_read + 1 } }
      if r.state.local_decls_read = r.state.local_decls then
        (.ok (count, ty), r.emit_locals_info)
      else (.ok (count, ty), r)

end MiddlewareBinaryReader

/-- Feed a drained batch of operators into one stage, in order, threading the
stage's state and concatenating what it pushes back.  On a stage abort the
operators the stage already pushed stay pending and the remaining drained
operators are dropped, as in the source (`stage.feed(pending_op, ...)?`). -/
def Stage.feedAll (s : Stage Op σ) :
    List Op → Except MiddlewareError Unit × Stage Op σ × List Op
  | [] => (.ok (), s, [])
  | op :: rest =>
    match s.feed s.st op with
    | .error e => (.error e, s, [])
    | .ok (st', outs) =>
      let (res, s', outs') := Stage.feedAll { s with st := st' } rest
      (res, s', outs ++ outs')

/-- Run the pending buffer through each stage of the chain in order: each
stage drains the buffer left by the previous stage and refills it with its
own outputs.  Errors propagate, keeping the state reached so far. -/
def runChain :
    List (Stage Op σ) → List Op →
      Except MiddlewareError Unit × List (Stage Op σ) × List Op
  | [], pending => (.ok (), [], pending)
  | s :: rest, pending =>
    let (res, s', pending') := s.feedAll pending
    match res with
    | .error e => (.error e, s' :: rest, pending')
    | .ok () =>
      let (res', rest', pending'') := runChain rest pending'
      (res', s' :: rest', pending'')

/-- The general path of `read_operator`: while the pending buffer is empty,
read one raw operator and run it through the chain; then pop the front of
the buffer.  Recursion is on the remaining raw stream. -/
def readOpLoop (chain : List (Stage Op σ)) (pending : List Op)
    (items : List (Except WasmError Op)) :
    Except WasmError Op × List (Stage Op σ) × List Op × List (Except WasmError Op) :=
  match pending with
  | p :: ps => (.ok p, chain, ps, items)
  | [] =>
    match items with
    | [] => (.error .eof, chain, [], [])
    | .error e :: rest => (.error e, chain, [], rest)
    | .ok raw :: rest =>
      match runChain chain [raw] with
      | (.error e, chain', pending') =>
        (.error (.middlewareError e.name e.message), chain', pending', rest)
      | (.ok (), chain', pending') => readOpLoop chain' pending' rest

/-- `MiddlewareBinaryReader::read_operator`: short-circuit to the raw reader
when the chain is empty, otherwise fill the pending buffer through the chain
and pop its front. -/
def MiddlewareBinaryReader.read_operator (r : MiddlewareBinaryReader Op σ) :
    Except WasmError Op × MiddlewareBinaryReader Op σ :=
  if r.chain.isEmpty then
    let (res, inner') := r.state.inner.read_operator
    (res, { r with state := { r.state with inner := inner' } })
  else
    let (res, chain', pending', items') :=
      readOpLoop r.chain r.state.pending_operations r.state.inner.opItems
    (res,
      { state :=
          { r.state with
            pending_operations := pending'
            inner := { r.state.inner with opItems := items' } }
        chain := chain' })

/-- The result sequence of `n` successive `read_operator` calls on the
middleware reader. -/
def MiddlewareBinaryReader.readResults (r : MiddlewareBinaryReader Op σ) :
    Nat → List (Except WasmError Op)
  | 0 => []
  | n + 1 => (r.read_operator).1 :: (r.read_operator).2.readResults n

end Middleware

namespace Middleware

/-- C1 -- For every function-body byte slice and starting offset, when the
middleware chain is empty, the sequence of results returned by successive
`MiddlewareBinaryReader::read_operator` calls (operators and any error)
equals the sequence returned by the raw `BinaryReader` over the same bytes
and offset (the raw reader the middleware reader was constructed over). -/
theorem c1_empty_chain_passthrough {Op σ : Type} :
    ∀ (n : Nat) (r : MiddlewareBinaryReader Op σ), r.chain = [] →
      r.readResults n = r.state.inner.readResults n := by
  intro n
  induction n with
  | zero => intro r _; rfl
  | succ n ih =>
    intro r h
    simp only [MiddlewareBinaryReader.readResults, BinaryReader.readResults,
      MiddlewareBinaryReader.read_operator, h, List.isEmpty_nil, if_true]
    exact congrArg _ (ih _ rfl)

/-- Witness for C1 at a concrete function body, offset 5, three reads. -/
theorem c1_empty_chain_passthrough_witness :
    (@MiddlewareBinaryReader.new_with_offset Nat Unit
        ⟨.ok 0, [], [.ok 7, .ok 8]⟩ 5).readResults 3 =
      (BinaryReader.new_with_offset ⟨.ok 0, [], [.ok 7, .ok 8]⟩ 5).readResults 3 :=
  c1_empty_chain_passthrough 3 _ rfl

/-- The `dup` stage of the fan-out scenario: `feed(op)` pushes `[op, op]`.
Its state is unused. -/
def dupStage (Op : Type) : Stage Op Bool :=
  { st := true
    locals_info := fun s _ => s
    feed := fun s op => .ok (s, [op, op]) }

/-- The `drop_second` stage: keeps only the first of each pair.  Its state
records whether the next operator fed is the first of a pair. -/
def dropSecondStage (Op : Type) : Stage Op Bool :=
  { st := true
    locals_info := fun s _ => s
    feed := fun s op => .ok (!s, if s then [op] else []) }

/-- A middleware reader over a raw operator sequence with a given chain
installed, built the way the translator does: `new_with_offset` followed by
`set_middleware_chain`. -/
def mkChainReader {Op : Type} (raw : List Op) (chain : List (Stage Op Bool)) :
    MiddlewareBinaryReader Op Bool :=
  (MiddlewareBinaryReader.new_with_offset Bool ⟨.ok 0, [], raw.map .ok⟩ 0).set_middleware_chain
    chain

/-- Two reads through the `[dup]` chain consume one raw operator and yield it
twice. -/
theorem dup_step {Op : Type} (a : Op) (items : List (Except WasmError Op)) (n : Nat)
    (c : Except WasmError Nat) (d : List (Except WasmError (Nat × WpType))) (o ld lr : Nat)
    (lo : List WpType) :
    MiddlewareBinaryReader.readResults
        ⟨⟨⟨c, d, .ok a :: items, o⟩, [], ld, lr, lo⟩, [dupStage Op]⟩ (n + 2)
      = .ok a :: .ok a ::
          MiddlewareBinaryReader.readResults
            ⟨⟨⟨c, d, items, o⟩, [], ld, lr, lo⟩, [dupStage Op]⟩ n := by
  simp [MiddlewareBinaryReader.readResults, MiddlewareBinaryReader.read_operator,
    readOpLoop, runChain, Stage.feedAll, dupStage]

/-- One read through the `[dup, drop_second]` chain consumes one raw operator
and yields it once, returning both stages to their initial state. -/
theorem dupdrop_step {Op : Type} (a : Op) (items : List (Except WasmError Op)) (n : Nat)
    (c : Except WasmError Nat) (d : List (Except WasmError (Nat × WpType))) (o ld lr : Nat)
    (lo : List WpType) :
    MiddlewareBinaryReader.readResults
        ⟨⟨⟨c, d, .ok a :: items, o⟩, [], ld, lr, lo⟩, [dupStage Op, dropSecondStage Op]⟩ (n + 1)
      = .ok a ::
          MiddlewareBinaryReader.readResults
            ⟨⟨⟨c, d, items, o⟩, [], ld, lr, lo⟩, [dupStage Op, dropSecondStage Op]⟩ n := by
  simp [MiddlewareBinaryReader.readResults, MiddlewareBinaryReader.read_operator,
    readOpLoop, runChain, Stage.feedAll, dupStage, dropSecondStage]

/-- Exhaustive output of the `[dup]` chain: every raw operator duplicated,
followed by the end-of-stream error. -/
theorem dup_readResults {Op : Type} :
    ∀ (raw : List Op) (c : Except WasmError Nat)
      (d : List (Except WasmError (Nat × WpType))) (o ld lr : Nat) (lo : List WpType),
      MiddlewareBinaryReader.readResults
          ⟨⟨⟨c, d, raw.map .ok, o⟩, [], ld, lr, lo⟩, [dupStage Op]⟩ (2 * raw.length + 1)
        = ((raw.flatMap fun op => [op, op]).map .ok) ++ [.error .eof] := by
  intro raw
  induction raw with
  | nil =>
    intro c d o ld lr lo
    simp [MiddlewareBinaryReader.readResults, MiddlewareBinaryReader.read_operator, readOpLoop]
  | cons a l ih =>
    intro c d o ld lr lo
    have harith : 2 * (a :: l).length + 1 = (2 * l.length + 1) + 2 := by
      simp [List.length_cons]; ring
    rw [harith, List.map_cons, dup_step, ih]
    simp

/-- Exhaustive output of the `[dup, drop_second]` chain: the raw sequence,
followed by the end-of-stream error. -/
theorem dupdrop_readResults {Op : Type} :
    ∀ (raw : List Op) (c : Except WasmError Nat)
      (d : List (Except WasmError (Nat × WpType))) (o ld lr : Nat) (lo : List WpType),
      MiddlewareBinaryReader.readResults
          ⟨⟨⟨c, d, raw.map .ok, o⟩, [], ld, lr, lo⟩, [dupStage Op, dropSecondStage Op]⟩
          (raw.length + 1)
        = (raw.map .ok) ++ [.error .eof] := by
  intro raw
  induction raw with
  | nil =>
    intro c d o ld lr lo
    simp [MiddlewareBinaryReader.readResults, MiddlewareBinaryReader.read_operator, readOpLoop]
  | cons a l ih =>
    intro c d o ld lr lo
    rw [List.length_cons, List.map_cons, dupdrop_step, ih]
    simp

/-- The first `n` read results are a prefix of the first `n + k`. -/
theorem readResults_take_eq {Op σ : Type} :
    ∀ (n : Nat) (r : MiddlewareBinaryReader Op σ) (k : Nat),
      r.readResults n = (r.readResults (n + k)).take n := by
  intro n
  induction n with
  | zero => intro r k; simp [MiddlewareBinaryReader.readResults]
  | succ n ih =>
    intro r k
    have : n + 1 + k = (n + k) + 1 := by ring
    rw [this]
    simp only [MiddlewareBinaryReader.readResults, List.take_succ_cons]
    exact congrArg _ (ih _ k)

/-- Duplication doubles the length. -/
theorem dup_bind_length {Op : Type} :
    ∀ raw : List Op, (raw.flatMap fun op => [op, op]).length = 2 * raw.length := by
  intro raw
  induction raw with
  | nil => simp
  | cons a l ih => simp [ih]; ring

/-- An even-length prefix of the duplicated sequence is the duplication of
the corresponding raw prefix. -/
theorem dup_bind_take {Op : Type} :
    ∀ (raw : List Op) (k : Nat),
      (raw.flatMap fun op => [op, op]).take (2 * k) = (raw.take k).flatMap fun op => [op, op] := by
  intro raw
  induction raw with
  | nil => intro k; simp
  | cons a l ih =>
    intro k
    match k with
    | 0 => simp
    | k + 1 =>
      have : 2 * (k + 1) = 2 * k + 1 + 1 := by ring
      rw [this]
      simp [ih]

/-- C2 -- For every raw operator sequence and the single-stage chain
`[dup]` (where `dup.feed(op)` pushes `[op, op]`), repeated `read_operator`
calls yield the raw sequence with each operator duplicated in place, the
next call past the output hits end-of-stream (so the total output length is
twice the raw length), and every even-length prefix of the output equals
`dup` applied to the corresponding raw prefix; for the chain
`[dup, drop_second]` (where `drop_second` keeps only the first of each
pair), the output equals the raw sequence. -/
theorem c2_dup_fanout_composition {Op : Type} (raw : List Op) :
    (mkChainReader raw [dupStage Op]).readResults (2 * raw.length + 1)
        = ((raw.flatMap fun op => [op, op]).map .ok) ++ [.error .eof]
    ∧ ((mkChainReader raw [dupStage Op]).readResults (2 * raw.length)).length
        = 2 * raw.length
    ∧ (∀ k : Nat,
        ((mkChainReader raw [dupStage Op]).readResults (2 * raw.length)).take (2 * k)
          = (((raw.take k).flatMap fun op => [op, op]).map .ok))
    ∧ (mkChainReader raw [dupStage Op, dropSecondStage Op]).readResults (raw.length + 1)
        = (raw.map .ok) ++ [.error .eof] := by
  have hfull :
      (mkChainReader raw [dupStage Op]).readResults (2 * raw.length + 1)
        = ((raw.flatMap fun op => [op, op]).map .ok) ++ [.error .eof] := by
    simpa [mkChainReader, MiddlewareBinaryReader.new_with_offset,
      MiddlewareBinaryReader.set_middleware_chain, BinaryReader.new_with_offset] using
      dup_readResults raw (.ok 0) [] 0 0 0 []
  have hlen : ((raw.flatMap fun op => [op, op]).map (Except.ok (ε := WasmError))).length
      = 2 * raw.length := by
    rw [List.length_map]; exact dup_bind_length raw
  have heven : (mkChainReader raw [dupStage Op]).readResults (2 * raw.length)
      = ((raw.flatMap fun op => [op, op]).map .ok) := by
    rw [readResults_take_eq (2 * raw.length) _ 1, hfull]
    rw [List.take_append_of_le_length (by rw [hlen]), ← hlen, List.take_length]
  refine ⟨hfull, ?_, ?_, ?_⟩
  · rw [heven, hlen]
  · intro k
    rw [heven, ← List.map_take, dup_bind_take]
  · simpa [mkChainReader, MiddlewareBinaryReader.new_with_offset,
      MiddlewareBinaryReader.set_middleware_chain, BinaryReader.new_with_offset] using
      dupdrop_readResults raw (.ok 0) [] 0 0 0 []

/-! ### The locals_info protocol (C3)

To observe the calls the reader makes into a stage we wrap an arbitrary
stage in a recorder: the wrapped state carries the list of calls received
so far next to the inner state, `locals_info` and `feed` log themselves and
then behave exactly as the inner stage. -/

/-- A call received by a middleware stage. -/
inductive Event (Op : Type)
  | localsInfo (tys : List WpType)
  | feed (op : Op)

/-- Is this event a `feed` call? -/
def Event.isFeed : Event Op → Bool
  | .feed _ => true
  | .localsInfo _ => false

/-- The `locals_info` of a recording stage: log the call, then run the
inner stage's `locals_info`. -/
def recLI {Op τ : Type} (li : τ → List WpType → τ) :
    (List (Event Op) × τ) → List WpType → (List (Event Op) × τ) :=
  fun s tys => (s.1 ++ [.localsInfo tys], li s.2 tys)

/-- The `feed` of a recording stage: log the call, then run the inner
stage's `feed`. -/
def recFeed {Op τ : Type} (f : τ → Op → Except MiddlewareError (τ × List Op)) :
    (List (Event Op) × τ) → Op → Except MiddlewareError ((List (Event Op) × τ) × List Op) :=
  fun s op =>
    match f s.2 op with
    | .error e => .error e
    | .ok (t, outs) => .ok ((s.1 ++ [.feed op], t), outs)

/-- Wrap an arbitrary stage so that every call it receives is recorded. -/
def recordStage {Op τ : Type} (inner : Stage Op τ) : Stage Op (List (Event Op) × τ) :=
  { st := ([], inner.st)
    locals_info := recLI inner.locals_info
    feed := recFeed inner.feed }

/-- A stage whose two methods have the recording shape. -/
def IsRecorder {Op τ : Type} (s : Stage Op (List (Event Op) × τ)) : Prop :=
  ∃ li f, s.locals_info = recLI li ∧ s.feed = recFeed f

/-- How one processing step may change a recorded stage: the methods are
unchanged and the event log grows by feed events only. -/
def StageEvExt {Op τ : Type} (s s' : Stage Op (List (Event Op) × τ)) : Prop :=
  s'.locals_info = s.locals_info ∧ s'.feed = s.feed ∧
    ∃ l, s'.st.1 = s.st.1 ++ l ∧ ∀ e ∈ l, e.isFeed = true

theorem StageEvExt.refl {Op τ : Type} (s : Stage Op (List (Event Op) × τ)) :
    StageEvExt s s :=
  ⟨Eq.refl _, Eq.refl _, [], by simp, by simp⟩

theorem StageEvExt.trans {Op τ : Type} {s₁ s₂ s₃ : Stage Op (List (Event Op) × τ)}
    (h₁ : StageEvExt s₁ s₂) (h₂ : StageEvExt s₂ s₃) : StageEvExt s₁ s₃ := by
  obtain ⟨hl₁, hf₁, l₁, he₁, hfe₁⟩ := h₁
  obtain ⟨hl₂, hf₂, l₂, he₂, hfe₂⟩ := h₂
  refine ⟨hl₂.trans hl₁, hf₂.trans hf₁, l₁ ++ l₂, ?_, ?_⟩
  · rw [he₂, he₁, List.append_assoc]
  · intro e he
    rcases List.mem_append.1 he with h | h
    · exact hfe₁ e h
    · exact hfe₂ e h

theorem StageEvExt.isRecorder {Op τ : Type} {s s' : Stage Op (List (Event Op) × τ)}
    (hr : IsRecorder s) (h : StageEvExt s s') : IsRecorder s' := by
  obtain ⟨li, f, hli, hf⟩ := hr
  exact ⟨li, f, h.1.trans hli, h.2.1.trans hf⟩

/-- Feeding a batch into a recording stage only appends feed events. -/
theorem feedAll_evExt {Op τ : Type} :
    ∀ (ops : List Op) (s : Stage Op (List (Event Op) × τ))
      (f : τ → Op → Except MiddlewareError (τ × List Op)), s.feed = recFeed f →
      StageEvExt s (Stage.feedAll s ops).2.1 := by
  intro ops
  induction ops with
  | nil => intro s f _; exact StageEvExt.refl s
  | cons op rest ih =>
    intro s f hf
    simp only [Stage.feedAll, hf, recFeed]
    cases hfo : f s.st.2 op with
    | error e => simp only [hfo]; exact StageEvExt.refl s
    | ok p =>
      obtain ⟨t, outs⟩ := p
      simp only [hfo]
      have hstep : StageEvExt s ⟨(s.st.1 ++ [.feed op], t), s.locals_info, recFeed f⟩ :=
        ⟨rfl, hf.symm, [.feed op], rfl, by simp [Event.isFeed]⟩
      exact hstep.trans (ih ⟨(s.st.1 ++ [.feed op], t), s.locals_info, recFeed f⟩ f rfl)

/-- Running the chain on a pending batch only appends feed events to each
recording stage. -/
theorem runChain_evExt {Op τ : Type} :
    ∀ (chain : List (Stage Op (List (Event Op) × τ))) (pending : List Op),
      (∀ s ∈ chain, IsRecorder s) →
      List.Forall₂ StageEvExt chain (runChain chain pending).2.1 := by
  intro chain
  induction chain with
  | nil => intro pending _; simp [runChain]
  | cons s rest ih =>
    intro pending hrec
    obtain ⟨li, f, _, hf⟩ := hrec s (by simp)
    have hext : StageEvExt s (Stage.feedAll s pending).2.1 := feedAll_evExt pending s f hf
    simp only [runChain]
    cases hfa : Stage.feedAll s pending with
    | mk res rest' =>
      obtain ⟨s', pending'⟩ := rest'
      rw [hfa] at hext
      cases res with
      | error e =>
        exact List.Forall₂.cons hext (List.forall₂_same.2 fun x _ => StageEvExt.refl x)
      | ok u =>
        cases u
        have := ih pending' (fun x hx => hrec x (by simp [hx]))
        cases hrc : runChain rest pending' with
        | mk res' rest'' =>
          obtain ⟨rest₂, pending''⟩ := rest''
          rw [hrc] at this
          exact List.Forall₂.cons hext this

/-- Transitivity of pointwise event extension. -/
theorem forall₂_evExt_trans {Op τ : Type} :
    ∀ {l₁ l₂ l₃ : List (Stage Op (List (Event Op) × τ))},
      List.Forall₂ StageEvExt l₁ l₂ → List.Forall₂ StageEvExt l₂ l₃ →
      List.Forall₂ StageEvExt l₁ l₃ := by
  intro l₁ l₂ l₃ h₁
  induction h₁ generalizing l₃ with
  | nil =>
    intro h₂; cases h₂; exact List.Forall₂.nil
  | cons h hs ih =>
    intro h₂
    cases h₂ with
    | cons h' hs' => exact List.Forall₂.cons (h.trans h') (ih hs')

/-- Event extension carries the recorder shape across a whole chain. -/
theorem forall₂_recorder {Op τ : Type} :
    ∀ {l l' : List (Stage Op (List (Event Op) × τ))},
      List.Forall₂ StageEvExt l l' → (∀ s ∈ l, IsRecorder s) →
      ∀ s' ∈ l', IsRecorder s' := by
  intro l l' h
  induction h with
  | nil => intro _ s' hs'; cases hs'
  | @cons a b l₁ l₂ h hs ih =>
    intro hrec s' hs'
    rcases List.mem_cons.1 hs' with rfl | hmem
    · exact StageEvExt.isRecorder (hrec a (List.mem_cons_self a l₁)) h
    · exact ih (fun x hx => hrec x (List.mem_cons_of_mem a hx)) s' hmem

/-- The fill loop only appends feed events to each recording stage. -/
theorem readOpLoop_evExt {Op τ : Type} :
    ∀ (items : List (Except WasmError Op))
      (chain : List (Stage Op (List (Event Op) × τ))) (pending : List Op),
      (∀ s ∈ chain, IsRecorder s) →
      List.Forall₂ StageEvExt chain (readOpLoop chain pending items).2.1 := by
  intro items
  induction items with
  | nil =>
    intro chain pending _
    cases pending with
    | nil => exact List.forall₂_same.2 fun x _ => StageEvExt.refl x
    | cons p ps => exact List.forall₂_same.2 fun x _ => StageEvExt.refl x
  | cons item rest ih =>
    intro chain pending hrec
    cases pending with
    | cons p ps => exact List.forall₂_same.2 fun x _ => StageEvExt.refl x
    | nil =>
      cases item with
      | error e => exact List.forall₂_same.2 fun x _ => StageEvExt.refl x
      | ok raw =>
        have hrun := runChain_evExt chain [raw] hrec
        simp only [readOpLoop]
        cases hrc : runChain chain [raw] with
        | mk res rest' =>
          obtain ⟨chain', pending'⟩ := rest'
          rw [hrc] at hrun
          cases res with
          | error e => exact hrun
          | ok u =>
            cases u
            exact forall₂_evExt_trans hrun
              (ih chain' pending' (forall₂_recorder hrun hrec))

/-- One `read_operator` call only appends feed events to each recording
stage. -/
theorem read_operator_evExt {Op τ : Type}
    (r : MiddlewareBinaryReader Op (List (Event Op) × τ))
    (hrec : ∀ s ∈ r.chain, IsRecorder s) :
    List.Forall₂ StageEvExt r.chain (r.read_operator).2.chain := by
  simp only [MiddlewareBinaryReader.read_operator]
  by_cases h : r.chain.isEmpty
  · simp only [h, if_true]
    exact List.forall₂_same.2 fun x _ => StageEvExt.refl x
  · simp only [h, if_false]
    exact readOpLoop_evExt r.state.inner.opItems r.chain r.state.pending_operations hrec

/-- Read the declared number of local declarations, one call at a time. -/
def runDecls (r : MiddlewareBinaryReader Op σ) : Nat → MiddlewareBinaryReader Op σ
  | 0 => r
  | n + 1 => runDecls (r.read_local_decl).2 n

/-- Read `n` operators, one call at a time. -/
def runOps (r : MiddlewareBinaryReader Op σ) : Nat → MiddlewareBinaryReader Op σ
  | 0 => r
  | n + 1 => runOps (r.read_operator).2 n

/-- Reading any number of operators only appends feed events to each
recording stage. -/
theorem runOps_evExt {Op τ : Type} :
    ∀ (m : Nat) (r : MiddlewareBinaryReader Op (List (Event Op) × τ)),
      (∀ s ∈ r.chain, IsRecorder s) →
      List.Forall₂ StageEvExt r.chain (runOps r m).chain := by
  intro m
  induction m with
  | zero =>
    intro r _
    exact List.forall₂_same.2 fun x _ => StageEvExt.refl x
  | succ m ih =>
    intro r hrec
    have h₁ := read_operator_evExt r hrec
    exact forall₂_evExt_trans h₁ (ih _ (forall₂_recorder h₁ hrec))

/-- Reading all declared locals under the protocol emits `locals_info` to
every stage of the chain exactly at the last declaration: the resulting
chain is the original chain with `locals_info` applied once to each stage
(for some locals vector `L`). -/
theorem runDecls_chain {Op σ : Type} :
    ∀ (ds : List (Nat × WpType)) (r : MiddlewareBinaryReader Op σ),
      r.state.inner.declItems = ds.map .ok →
      r.state.local_decls = r.state.local_decls_read + ds.length →
      0 < ds.length →
      ∃ L, (runDecls r ds.length).chain
          = r.chain.map fun s => { s with st := s.locals_info s.st L } := by
  intro ds
  induction ds with
  | nil => intro r _ _ hpos; exact absurd hpos (by simp)
  | cons d rest ih =>
    obtain ⟨c, t⟩ := d
    intro r hitems htot _
    rw [List.length_cons] at htot
    have hstep :
        (r.read_local_decl).2 =
          (if r.state.local_decls_read + 1 = r.state.local_decls then
            MiddlewareBinaryReader.emit_locals_info
              { r with state :=
                  { r.state with
                    inner := { r.state.inner with declItems := rest.map .ok }
                    locals := r.state.locals ++ List.replicate c t
                    local_decls_read := r.state.local_decls_read + 1 } }
          else
            { r with state :=
                { r.state with
                  inner := { r.state.inner with declItems := rest.map .ok }
                  locals := r.state.locals ++ List.replicate c t
                  local_decls_read := r.state.local_decls_read + 1 } }) := by
      simp only [MiddlewareBinaryReader.read_local_decl, hitems, List.map_cons]
      split <;> rfl
    by_cases hlast : rest = []
    · subst hlast
      have hcond : r.state.local_decls_read + 1 = r.state.local_decls := by
        rw [htot]; simp
      rw [show runDecls r ([(c, t)] : List (Nat × WpType)).length
            = runDecls (r.read_local_decl).2 0 from rfl]
      rw [hstep, if_pos hcond]
      refine ⟨r.state.locals ++ List.replicate c t, ?_⟩
      simp [runDecls, MiddlewareBinaryReader.emit_locals_info]
    · have hcond : ¬ (r.state.local_decls_read + 1 = r.state.local_decls) := by
        rw [htot]
        have : 0 < rest.length := List.length_pos.2 hlast
        omega
      rw [show runDecls r ((c, t) :: rest).length
            = runDecls (r.read_local_decl).2 rest.length from rfl]
      rw [hstep, if_neg hcond]
      exact ih _ rfl (by simp [htot]; omega) (List.length_pos.2 hlast)

/-- The normal protocol for reading one function body: `read_local_count`,
then the declared number of `read_local_decl` calls, then `read_operator`
calls. -/
def runBody (r : MiddlewareBinaryReader Op σ) (k m : Nat) :
    MiddlewareBinaryReader Op σ :=
  runOps (runDecls (r.read_local_count).2 k) m

/-- After the locals phase of the protocol, every stage has received exactly
one `locals_info` call: the chain is the installed chain with `locals_info`
applied once to each stage. -/
theorem locals_phase_chain {Op σ : Type} (chain : List (Stage Op σ))
    (decls : List (Nat × WpType)) (ops : List (Except WasmError Op)) (offset k : Nat)
    (hk : decls.length = k) :
    ∃ L, (runDecls
        (((MiddlewareBinaryReader.new_with_offset σ ⟨.ok k, decls.map .ok, ops⟩
            offset).set_middleware_chain chain).read_local_count).2 k).chain
      = chain.map fun s => { s with st := s.locals_info s.st L } := by
  by_cases hk0 : k = 0
  · subst hk0
    have hnil : decls = [] := List.length_eq_zero.1 hk
    subst hnil
    refine ⟨[], ?_⟩
    simp [MiddlewareBinaryReader.new_with_offset, MiddlewareBinaryReader.set_middleware_chain,
      MiddlewareBinaryReader.read_local_count, BinaryReader.new_with_offset, runDecls,
      MiddlewareBinaryReader.emit_locals_info]
  · have h1 :
        (((MiddlewareBinaryReader.new_with_offset σ ⟨.ok k, decls.map .ok, ops⟩
            offset).set_middleware_chain chain).read_local_count).2
          = { state :=
                { inner := ⟨.ok k, decls.map .ok, ops, offset⟩
                  pending_operations := []
                  local_decls := k
                  local_decls_read := 0
                  locals := [] }
              chain := chain } := by
      simp [MiddlewareBinaryReader.new_with_offset, MiddlewareBinaryReader.set_middleware_chain,
        MiddlewareBinaryReader.read_local_count, BinaryReader.new_with_offset, hk0]
    rw [h1, ← hk]
    exact runDecls_chain decls _ rfl (by simp) (by rw [hk]; omega)

/-- C3 -- For every middleware chain (arbitrary stages, each wrapped so its
incoming calls are recorded) and every function body read under the normal
protocol (`read_local_count`, then that many `read_local_decl` calls, then
any number of `read_operator` calls), each stage receives exactly one
`locals_info` call, and it precedes the stage's first `feed`: each final
call log is a single `localsInfo` event followed by `feed` events only. -/
theorem c3_locals_info_once {Op τ : Type} (inners : List (Stage Op τ))
    (decls : List (Nat × WpType)) (ops : List (Except WasmError Op)) (offset m k : Nat)
    (hk : decls.length = k) :
    (runBody ((MiddlewareBinaryReader.new_with_offset (List (Event Op) × τ)
        ⟨.ok k, decls.map .ok, ops⟩ offset).set_middleware_chain
          (inners.map recordStage)) k m).chain.length = inners.length
    ∧ ∀ i (hi : i < (runBody ((MiddlewareBinaryReader.new_with_offset (List (Event Op) × τ)
        ⟨.ok k, decls.map .ok, ops⟩ offset).set_middleware_chain
          (inners.map recordStage)) k m).chain.length),
        ∃ tys l,
          ((runBody ((MiddlewareBinaryReader.new_with_offset (List (Event Op) × τ)
              ⟨.ok k, decls.map .ok, ops⟩ offset).set_middleware_chain
                (inners.map recordStage)) k m).chain.get ⟨i, hi⟩).st.1
            = Event.localsInfo tys :: l ∧ ∀ e ∈ l, e.isFeed = true := by
  obtain ⟨L, hL⟩ :=
    locals_phase_chain (inners.map recordStage) decls ops offset k hk
  set r2 := runDecls
      (((MiddlewareBinaryReader.new_with_offset (List (Event Op) × τ)
          ⟨.ok k, decls.map .ok, ops⟩ offset).set_middleware_chain
            (inners.map recordStage)).read_local_count).2 k with hr2
  have hchain2 : r2.chain
      = inners.map fun inner =>
          ({ st := ([Event.localsInfo L], inner.locals_info inner.st L)
             locals_info := recLI inner.locals_info
             feed := recFeed inner.feed } : Stage Op (List (Event Op) × τ)) := by
    rw [hL, List.map_map]
    refine List.map_congr_left fun inner _ => ?_
    simp [recordStage, recLI]
  have hrec : ∀ s ∈ r2.chain, IsRecorder s := by
    rw [hchain2]
    intro s hs
    obtain ⟨inner, _, rfl⟩ := List.mem_map.1 hs
    exact ⟨inner.locals_info, inner.feed, rfl, rfl⟩
  have hrun : List.Forall₂ StageEvExt r2.chain (runOps r2 m).chain :=
    runOps_evExt m r2 hrec
  have hlen := hrun.length_eq
  constructor
  · show (runOps r2 m).chain.length = inners.length
    rw [← hlen, hchain2, List.length_map]
  · intro i hi
    have hi' : i < (runOps r2 m).chain.length := hi
    have hget := (List.forall₂_iff_get.1 hrun).2 i (by rw [hlen]; exact hi') hi'
    obtain ⟨_, _, l, hst, hfeeds⟩ := hget
    refine ⟨L, l, ?_, hfeeds⟩
    show ((runOps r2 m).chain.get ⟨i, hi'⟩).st.1 = Event.localsInfo L :: l
    rw [hst]
    have hbase : (r2.chain.get ⟨i, by rw [hlen]; exact hi'⟩).st.1
        = [Event.localsInfo L] := by
      rw [List.get_of_eq hchain2]
      simp [List.getElem_map]
    rw [hbase]
    rfl

/-- A pass-through stage (the default `feed` of the trait). -/
def passStage (Op : Type) : Stage Op Unit :=
  { st := ()
    locals_info := fun s _ => s
    feed := fun s op => .ok (s, [op]) }

/-- Witness for C3: one pass-through stage, one local declaration, one
operator read twice. -/
theorem c3_locals_info_once_witness :
    (runBody ((MiddlewareBinaryReader.new_with_offset (List (Event Nat) × Unit)
        ⟨.ok 1, [(1, WpType.i32)].map .ok, [.ok 5]⟩ 0).set_middleware_chain
          ([passStage Nat].map recordStage)) 1 2).chain.length = [passStage Nat].length
    ∧ ∀ i (hi : i < (runBody ((MiddlewareBinaryReader.new_with_offset (List (Event Nat) × Unit)
        ⟨.ok 1, [(1, WpType.i32)].map .ok, [.ok 5]⟩ 0).set_middleware_chain
          ([passStage Nat].map recordStage)) 1 2).chain.length),
        ∃ tys l,
          ((runBody ((MiddlewareBinaryReader.new_with_offset (List (Event Nat) × Unit)
              ⟨.ok 1, [(1, WpType.i32)].map .ok, [.ok 5]⟩ 0).set_middleware_chain
                ([passStage Nat].map recordStage)) 1 2).chain.get ⟨i, hi⟩).st.1
            = Event.localsInfo tys :: l ∧ ∀ e ∈ l, e.isFeed = true :=
  c3_locals_info_once [passStage Nat] [(1, WpType.i32)] [.ok 5] 0 2 1 rfl

end Middleware

namespace WapmResolver

/-! Embedding of `lib/wasix/src/runtime/resolver/wapm_source.rs`.

The `semver` crate is external; `Version::parse` is modelled on the
`major.minor.patch` fragment the repository's inputs use, and a version
requirement (`semver::VersionReq`) is an opaque predicate on versions, so
`req.matches(v)` is function application.  JSON / manifest / URL / hex
decoding are oracle functions collected in `Decoders`. -/

/-- A parsed semantic version (`semver::Version` on the numeric fragment). -/
structure Version where
  major : Nat
  minor : Nat
  patch : Nat
deriving DecidableEq, Repr

/-- Split a character list on the dot character. -/
def splitDots : List Char → List (List Char)
  | [] => [[]]
  | c :: rest =>
    let r := splitDots rest
    if c = '.' then [] :: r
    else
      match r with
      | [] => [[c]]
      | g :: gs => (c :: g) :: gs

/-- Read a nonempty all-digit character list as a number. -/
def digitsToNat : List Char → Option Nat
  | [] => none
  | cs =>
    if cs.all Char.isDigit then
      some (cs.foldl (fun n c => 10 * n + (c.toNat - 48)) 0)
    else none

/-- `semver::Version::parse`, modelled on dotted numeric triples
(`major.minor.patch`): any other shape fails to parse. -/
def Version.parse (s : String) : Option Version :=
  match (splitDots s.data).map digitsToNat with
  | [some x, some y, some z] => some ⟨x, y, z⟩
  | _ => none

/-- `semver::VersionReq`: an opaque constraint; `matches` is application. -/
def VersionReq : Type := Version → Bool

/-- The `*` requirement. -/
def VersionReq.star : VersionReq := fun _ => true

/-- `WapmWebQueryGetPackageVersionDistribution`. -/
structure WapmWebQueryGetPackageVersionDistribution where
  pirita_download_url : Option String
  pirita_sha256_hash : Option String
deriving DecidableEq, Repr

/-- `WapmWebQueryGetPackageVersion`. -/
structure WapmWebQueryGetPackageVersion where
  version : String
  is_archived : Bool
  manifest : Option String
  distribution : WapmWebQueryGetPackageVersionDistribution
deriving DecidableEq, Repr

/-- `WapmWebQueryGetPackage`. -/
structure WapmWebQueryGetPackage where
  versions : List WapmWebQueryGetPackageVersion
deriving DecidableEq, Repr

/-- `WapmWebQueryData`. -/
structure WapmWebQueryData where
  get_package : Option WapmWebQueryGetPackage
deriving DecidableEq, Repr

/-- `WapmWebQuery`. -/
structure WapmWebQuery where
  data : WapmWebQueryData
deriving DecidableEq, Repr

/-- `PackageInfo`, reduced to the fields the claims inspect
(`PackageInfo::from_manifest` lives outside the extracted sources; the
manifest-to-info step is an oracle in `Decoders`). -/
structure PackageInfo where
  name : String
  version : Version
deriving DecidableEq, Repr

/-- `DistributionInfo`: download URL plus webc hash (URLs and hashes kept as
their string spellings; parsing them is an oracle). -/
structure DistributionInfo where
  webc : String
  webc_sha256 : String
deriving DecidableEq, Repr

/-- `PackageSummary`. -/
structure PackageSummary where
  pkg : PackageInfo
  dist : DistributionInfo
deriving DecidableEq, Repr

/-- `QueryError`. -/
inductive QueryError
  | unsupported
  | notFound
  | noMatches (archived_versions : List Version)
  | registry (message : String)
  | other (message : String)
deriving DecidableEq, Repr

/-- The external decoding steps used by `decode_summary`: manifest JSON
deserialization (`serde_json` + `webc::metadata::Manifest` +
`PackageInfo::from_manifest`, collapsed into one oracle producing the
`PackageInfo`), `WebcHash::parse_hex`, and `Url::parse`.  Each may fail. -/
structure Decoders where
  infoFromManifest : String → Option PackageInfo
  parse_hex : String → Option String
  parseUrl : String → Option String

/-- `decode_summary`: fail (skip) when the manifest, the sha256 or the
download URL is absent, or when any of the external decoding steps fails. -/
def decode_summary (d : Decoders) (pkg_version : WapmWebQueryGetPackageVersion) :
    Option PackageSummary := do
  let manifest ← pkg_version.manifest
  let hash ← pkg_version.distribution.pirita_sha256_hash
  let url ← pkg_version.distribution.pirita_download_url
  let pkg ← d.infoFromManifest manifest
  let webc_sha256 ← d.parse_hex hash
  let webc ← d.parseUrl url
  some { pkg := pkg, dist := { webc := webc, webc_sha256 := webc_sha256 } }

/-- The loop body of `WapmSource::query` over one returned version, acting
on the accumulated `(summaries, archived_versions)` pair: an unparsable
version number is skipped, an archived version is recorded and skipped, a
version outside the constraint is skipped, and a version whose metadata
fails to decode is skipped. -/
def queryStep (d : Decoders) (version_constraint : VersionReq)
    (acc : List PackageSummary × List Version)
    (pkg_version : WapmWebQueryGetPackageVersion) :
    List PackageSummary × List Version :=
  match Version.parse pkg_version.version with
  | none => acc
  | some version =>
    if pkg_version.is_archived then (acc.1, acc.2 ++ [version])
    else if version_constraint version then
      match decode_summary d pkg_version with
      | some summary => (acc.1 ++ [summary], acc.2)
      | none => acc
    else acc

/-- The body of `WapmSource::query` once the GraphQL response is in hand:
a missing package is `NotFound`; otherwise the versions are filtered and an
empty result is `NoMatches` carrying the archived versions. -/
def queryResponse (d : Decoders) (version_constraint : VersionReq)
    (response : WapmWebQuery) : Except QueryError (List PackageSummary) :=
  match response.data.get_package with
  | none => .error .notFound
  | some gp =>
    let (summaries, archived_versions) :=
      gp.versions.foldl (queryStep d version_constraint) ([], [])
    if summaries.isEmpty then .error (.noMatches archived_versions)
    else .ok summaries

/-- The versions `query` collects into `archived_versions`: those whose
version number parses and which are marked archived. -/
def archivedOf (versions : List WapmWebQueryGetPackageVersion) : List Version :=
  versions.filterMap fun pv =>
    match Version.parse pv.version with
    | none => none
    | some v => if pv.is_archived then some v else none

/-- The summaries that survive `query`'s filtering: version parses, not
archived, constraint matches, metadata decodes. -/
def survivorsOf (d : Decoders) (version_constraint : VersionReq)
    (versions : List WapmWebQueryGetPackageVersion) : List PackageSummary :=
  versions.filterMap fun pv =>
    match Version.parse pv.version with
    | none => none
    | some v =>
      if pv.is_archived then none
      else if version_constraint v then decode_summary d pv
      else none

/-- The fold underlying `query` computes exactly the survivors and the
archived versions, appended to the running accumulator. -/
theorem queryFold_spec (d : Decoders) (c : VersionReq) :
    ∀ (versions : List WapmWebQueryGetPackageVersion)
      (acc : List PackageSummary × List Version),
      versions.foldl (queryStep d c) acc
        = (acc.1 ++ survivorsOf d c versions, acc.2 ++ archivedOf versions) := by
  intro versions
  induction versions with
  | nil => intro acc; simp [survivorsOf, archivedOf]
  | cons pv rest ih =>
    intro acc
    rw [List.foldl_cons, ih]
    simp only [survivorsOf, archivedOf, List.filterMap_cons, queryStep]
    cases hp : Version.parse pv.version with
    | none => simp
    | some v =>
      by_cases ha : pv.is_archived
      · simp [ha]
      · by_cases hm : c v
        · cases hd : decode_summary d pv with
          | none => simp [ha, hm, hd]
          | some s => simp [ha, hm, hd]
        · simp [ha, hm]

/-- Decoders for the archived-versions scenario: each stand-in manifest
string decodes to the package info of its version; hex and URL parsing
succeed. -/
def exampleDecoders : Decoders :=
  { infoFromManifest := fun m =>
      if m = "m3.12.2" then some ⟨"wasmer/python", ⟨3, 12, 2⟩⟩
      else if m = "m3.12.1" then some ⟨"wasmer/python", ⟨3, 12, 1⟩⟩
      else if m = "m3.12.0" then some ⟨"wasmer/python", ⟨3, 12, 0⟩⟩
      else none
    parse_hex := some
    parseUrl := some }

/-- The `skip_archived_package_versions` scenario: versions `3.12.2`
(archived), `3.12.1`, `3.12.0` (archived). -/
def archivedGp : WapmWebQueryGetPackage :=
  ⟨[⟨"3.12.2", true, some "m3.12.2", ⟨some "u0", some "h0"⟩⟩,
    ⟨"3.12.1", false, some "m3.12.1", ⟨some "u1", some "h1"⟩⟩,
    ⟨"3.12.0", true, some "m3.12.0", ⟨some "u2", some "h2"⟩⟩]⟩

/-- The GraphQL response of the archived-versions scenario. -/
def archivedResponse : WapmWebQuery := ⟨⟨some archivedGp⟩⟩

/-- C4 -- `WapmSource::query` skips each version marked `is_archived`,
collecting its parsed semver into `archived_versions`, and returns
`NoMatches { archived_versions }` exactly when no summary survives
filtering; a response with versions `3.12.2` (archived), `3.12.1`,
`3.12.0` (archived) under specifier `*` returns the single summary of
version `3.12.1`. -/
theorem c4_archived_filtering :
    (∀ (d : Decoders) (c : VersionReq) (resp : WapmWebQuery)
        (gp : WapmWebQueryGetPackage),
        resp.data.get_package = some gp →
        (queryResponse d c resp = .error (.noMatches (archivedOf gp.versions))
          ↔ survivorsOf d c gp.versions = []))
    ∧ queryResponse exampleDecoders VersionReq.star archivedResponse
        = .ok [⟨⟨"wasmer/python", ⟨3, 12, 1⟩⟩, ⟨"u1", "h1"⟩⟩] := by
  constructor
  · intro d c resp gp h
    simp only [queryResponse, h]
    rw [queryFold_spec]
    simp only [List.nil_append]
    by_cases hs : survivorsOf d c gp.versions = []
    · simp [hs]
    · simp [hs]
  · decide

/-- Witness for C4's general part at the archived-versions response. -/
theorem c4_archived_filtering_witness :
    queryResponse exampleDecoders VersionReq.star archivedResponse
        = .error (.noMatches (archivedOf archivedGp.versions))
      ↔ survivorsOf exampleDecoders VersionReq.star archivedGp.versions = [] :=
  c4_archived_filtering.1 exampleDecoders VersionReq.star archivedResponse archivedGp rfl

/-- Decoders for the missing-fields scenario. -/
def cowsayDecoders : Decoders :=
  { infoFromManifest := fun m =>
      if m = "mcowsay" then some ⟨"cowsay", ⟨0, 2, 0⟩⟩ else none
    parse_hex := some
    parseUrl := some }

/-- The `skip_package_versions_with_missing_fields` scenario: one
well-formed version `0.2.0` and three entries each missing one of
`piritaManifest` / `piritaDownloadUrl` / `piritaSha256Hash`. -/
def mixedGp : WapmWebQueryGetPackage :=
  ⟨[⟨"0.2.0", false, some "mcowsay", ⟨some "uc", some "hc"⟩⟩,
    ⟨"0.1.3", false, none, ⟨some "u1", some "h1"⟩⟩,
    ⟨"0.1.2", false, some "{}", ⟨none, some "h2"⟩⟩,
    ⟨"0.1.3", false, some "{}", ⟨some "u3", none⟩⟩]⟩

/-- The GraphQL response of the missing-fields scenario. -/
def mixedResponse : WapmWebQuery := ⟨⟨some mixedGp⟩⟩

/-- C5 -- `WapmSource::query` skips any version whose `piritaManifest`,
`piritaDownloadUrl` or `piritaSha256Hash` is absent, or whose version
string fails semver parsing, without failing the whole response: whenever
any version survives, the query succeeds with exactly the survivors; the
mixed response yields exactly one summary, of version `0.2.0`. -/
theorem c5_skip_malformed_versions :
    (∀ (d : Decoders) (c : VersionReq) (resp : WapmWebQuery)
        (gp : WapmWebQueryGetPackage),
        resp.data.get_package = some gp →
        survivorsOf d c gp.versions ≠ [] →
        queryResponse d c resp = .ok (survivorsOf d c gp.versions))
    ∧ queryResponse cowsayDecoders VersionReq.star mixedResponse
        = .ok [⟨⟨"cowsay", ⟨0, 2, 0⟩⟩, ⟨"uc", "hc"⟩⟩] := by
  constructor
  · intro d c resp gp h hs
    simp only [queryResponse, h]
    rw [queryFold_spec]
    simp [hs]
  · decide

/-- Witness for C5's general part at the mixed response. -/
theorem c5_skip_malformed_versions_witness :
    queryResponse cowsayDecoders VersionReq.star mixedResponse
      = .ok (survivorsOf cowsayDecoders VersionReq.star mixedGp.versions) :=
  c5_skip_malformed_versions.1 cowsayDecoders VersionReq.star mixedResponse mixedGp rfl
    (by decide)

/-! ### The on-disk query cache (C6, C10)

The cache directory is modelled as a map from paths to file contents; a
file either deserializes to a `CacheEntry` or is corrupt.  Wall-clock time
is an explicit parameter in seconds (the unit `Duration::as_secs` uses).
The temp-file + fsync + rename discipline of `update` collapses, in this
sequential model, to an atomic write at the final path. -/

/-- `CacheEntry`: `{unix_timestamp, package_name, response}`. -/
structure CacheEntry where
  unix_timestamp : Nat
  package_name : String
  response : WapmWebQuery
deriving DecidableEq, Repr

/-- What a cache file on disk holds: a deserializable entry, or bytes that
fail to deserialize. -/
inductive CacheFile
  | valid (entry : CacheEntry)
  | corrupt
deriving DecidableEq, Repr

/-- The cache directory contents. -/
def FileSys : Type := String → Option CacheFile

/-- `FileSystemCache`: directory plus freshness timeout. -/
structure FileSystemCache where
  cache_dir : String
  timeout : Nat

/-- `FileSystemCache::path`. -/
def FileSystemCache.path (c : FileSystemCache) (package_name : String) : String :=
  c.cache_dir ++ "/" ++ package_name

/-- `CacheEntry::is_still_valid`: a timestamp in the future (clock issue) is
invalid; otherwise the entry is valid while its age is at most the
timeout. -/
def CacheEntry.is_still_valid (e : CacheEntry) (timeout now : Nat) : Bool :=
  if now < e.unix_timestamp then false
  else decide (now - e.unix_timestamp ≤ timeout)

/-- `FileSystemCache::lookup_cached_query`: a missing file is a miss; a file
that fails to deserialize is deleted and reported as an error; a stale (or
future-dated) entry is deleted and reported as a miss; an entry recorded for
a different package is deleted and reported as an error; otherwise the
cached response is returned.  Returns the result together with the cache
directory state it leaves behind. -/
def FileSystemCache.lookup_cached_query (c : FileSystemCache) (fs : FileSys)
    (now : Nat) (package_name : String) :
    Except String (Option WapmWebQuery) × FileSys :=
  let filename := c.path package_name
  match fs filename with
  | none => (.ok none, fs)
  | some .corrupt =>
    (.error "Unable to parse the cached query",
      fun p => if p = filename then none else fs p)
  | some (.valid entry) =>
    if entry.is_still_valid c.timeout now then
      if entry.package_name = package_name then (.ok (some entry.response), fs)
      else
        (.error ("The cached response at \"" ++ filename ++ "\" corresponds to the \""
            ++ entry.package_name ++ "\" package, but expected \"" ++ package_name ++ "\""),
          fun p => if p = filename then none else fs p)
    else (.ok none, fun p => if p = filename then none else fs p)

/-- `FileSystemCache::update`: serialize `{now, package_name, response}` and
move it into place at the package's path. -/
def FileSystemCache.update (c : FileSystemCache) (fs : FileSys) (now : Nat)
    (package_name : String) (response : WapmWebQuery) : FileSys :=
  fun p =>
    if p = c.path package_name then some (.valid ⟨now, package_name, response⟩)
    else fs p

/-- C6 -- After `update` writes an entry for package `p` at time `T` with
freshness timeout `Δ`, a `lookup_cached_query` for `p` at a later time `T'`
returns that cached response iff `T' - T ≤ Δ`; a stale entry is a miss,
and (in any cache state) a cached value is served only when the stored
`package_name` equals the lookup key. -/
theorem c6_cache_freshness :
    (∀ (dir : String) (Δ : Nat) (fs : FileSys) (T T' : Nat) (p : String)
        (resp : WapmWebQuery), T ≤ T' →
        (((FileSystemCache.mk dir Δ).lookup_cached_query
              ((FileSystemCache.mk dir Δ).update fs T p resp) T' p).1
            = .ok (some resp) ↔ T' - T ≤ Δ))
    ∧ (∀ (dir : String) (Δ : Nat) (fs : FileSys) (T T' : Nat) (p : String)
        (resp : WapmWebQuery), T ≤ T' → ¬ (T' - T ≤ Δ) →
        ((FileSystemCache.mk dir Δ).lookup_cached_query
              ((FileSystemCache.mk dir Δ).update fs T p resp) T' p).1
            = .ok none)
    ∧ (∀ (c : FileSystemCache) (fs : FileSys) (now : Nat) (q : String)
        (r : WapmWebQuery),
        (c.lookup_cached_query fs now q).1 = .ok (some r) →
        ∃ e, fs (c.path q) = some (.valid e) ∧ e.package_name = q ∧ e.response = r) := by
  refine ⟨?_, ?_, ?_⟩
  · intro dir Δ fs T T' p resp hT
    have hnl : ¬ T' < T := Nat.not_lt.2 hT
    by_cases hfresh : T' - T ≤ Δ
    · simp [FileSystemCache.lookup_cached_query, FileSystemCache.update,
        CacheEntry.is_still_valid, hnl, hfresh]
    · simp [FileSystemCache.lookup_cached_query, FileSystemCache.update,
        CacheEntry.is_still_valid, hnl, hfresh]
  · intro dir Δ fs T T' p resp hT hstale
    have hnl : ¬ T' < T := Nat.not_lt.2 hT
    simp [FileSystemCache.lookup_cached_query, FileSystemCache.update,
      CacheEntry.is_still_valid, hnl, hstale]
  · intro c fs now q r hserve
    simp only [FileSystemCache.lookup_cached_query] at hserve
    cases hfile : fs (c.path q) with
    | none => rw [hfile] at hserve; simp at hserve
    | some file =>
      cases file with
      | corrupt => rw [hfile] at hserve; simp at hserve
      | valid e =>
        rw [hfile] at hserve
        by_cases hvalid : e.is_still_valid c.timeout now
        · by_cases hname : e.package_name = q
          · simp [hvalid, hname] at hserve
            exact ⟨e, rfl, hname, hserve⟩
          · simp [hvalid, hname] at hserve
        · simp [hvalid] at hserve

/-- Witness for C6 at a concrete cache run: write at time 10, timeout 5,
lookups at times 13 (hit) and 20 (stale miss); and a concrete served lookup
implying the stored name matches. -/
theorem c6_cache_freshness_witness :
    (((FileSystemCache.mk "dir" 5).lookup_cached_query
          ((FileSystemCache.mk "dir" 5).update (fun _ => none) 10 "pkg"
            (WapmWebQuery.mk ⟨none⟩)) 13 "pkg").1
        = .ok (some (WapmWebQuery.mk ⟨none⟩)) ↔ 13 - 10 ≤ 5)
    ∧ (((FileSystemCache.mk "dir" 5).lookup_cached_query
          ((FileSystemCache.mk "dir" 5).update (fun _ => none) 10 "pkg"
            (WapmWebQuery.mk ⟨none⟩)) 20 "pkg").1
        = .ok none)
    ∧ (∃ e, ((FileSystemCache.mk "dir" 5).update (fun _ => none) 10 "pkg"
          (WapmWebQuery.mk ⟨none⟩)) ((FileSystemCache.mk "dir" 5).path "pkg")
            = some (.valid e)
        ∧ e.package_name = "pkg" ∧ e.response = WapmWebQuery.mk ⟨none⟩) :=
  ⟨c6_cache_freshness.1 "dir" 5 (fun _ => none) 10 13 "pkg" (WapmWebQuery.mk ⟨none⟩)
      (by decide),
   c6_cache_freshness.2.1 "dir" 5 (fun _ => none) 10 20 "pkg" (WapmWebQuery.mk ⟨none⟩)
      (by decide) (by decide),
   c6_cache_freshness.2.2 (FileSystemCache.mk "dir" 5)
      ((FileSystemCache.mk "dir" 5).update (fun _ => none) 10 "pkg"
        (WapmWebQuery.mk ⟨none⟩)) 13 "pkg" (WapmWebQuery.mk ⟨none⟩) (by decide)⟩

/-- C10 -- Whenever `lookup_cached_query` reads an existing cache file that
fails to deserialize, is older than the timeout (or timestamped in the
future), or records a `package_name` different from the lookup key, it
deletes that cache file before returning, so a subsequent lookup for the
same key is a clean cache miss; the name-mismatch case returns an error
rather than a miss. -/
theorem c10_lookup_deletes_bad_entries :
    ∀ (c : FileSystemCache) (fs : FileSys) (now : Nat) (q : String),
      (fs (c.path q) = some .corrupt →
        (∃ msg, (c.lookup_cached_query fs now q).1 = .error msg)
        ∧ (c.lookup_cached_query fs now q).2 (c.path q) = none
        ∧ ∀ now' : Nat,
            (c.lookup_cached_query (c.lookup_cached_query fs now q).2 now' q).1 = .ok none)
      ∧ (∀ e : CacheEntry, fs (c.path q) = some (.valid e) →
          e.is_still_valid c.timeout now = false →
          (c.lookup_cached_query fs now q).1 = .ok none
          ∧ (c.lookup_cached_query fs now q).2 (c.path q) = none
          ∧ ∀ now' : Nat,
              (c.lookup_cached_query (c.lookup_cached_query fs now q).2 now' q).1 = .ok none)
      ∧ (∀ e : CacheEntry, fs (c.path q) = some (.valid e) →
          e.is_still_valid c.timeout now = true → e.package_name ≠ q →
          (∃ msg, (c.lookup_cached_query fs now q).1 = .error msg)
          ∧ (c.lookup_cached_query fs now q).2 (c.path q) = none
          ∧ ∀ now' : Nat,
              (c.lookup_cached_query (c.lookup_cached_query fs now q).2 now' q).1
                = .ok none) := by
  intro c fs now q
  refine ⟨?_, ?_, ?_⟩
  · intro hfile
    refine ⟨⟨"Unable to parse the cached query", ?_⟩, ?_, ?_⟩
    · simp [FileSystemCache.lookup_cached_query, hfile]
    · simp [FileSystemCache.lookup_cached_query, hfile]
    · intro now'
      simp [FileSystemCache.lookup_cached_query, hfile]
  · intro e hfile hstale
    refine ⟨?_, ?_, ?_⟩
    · simp [FileSystemCache.lookup_cached_query, hfile, hstale]
    · simp [FileSystemCache.lookup_cached_query, hfile, hstale]
    · intro now'
      simp [FileSystemCache.lookup_cached_query, hfile, hstale]
  · intro e hfile hvalid hname
    refine ⟨⟨"The cached response at \"" ++ c.path q ++ "\" corresponds to the \""
        ++ e.package_name ++ "\" package, but expected \"" ++ q ++ "\"", ?_⟩, ?_, ?_⟩
    · simp [FileSystemCache.lookup_cached_query, hfile, hvalid, hname]
    · simp [FileSystemCache.lookup_cached_query, hfile, hvalid, hname]
    · intro now'
      simp [FileSystemCache.lookup_cached_query, hfile, hvalid, hname]

/-- Witness for C10 at a concrete corrupt entry, a concrete stale entry and
a concrete name-mismatched entry. -/
theorem c10_lookup_deletes_bad_entries_witness :
    ((∃ msg, ((FileSystemCache.mk "d" 5).lookup_cached_query
          (fun p => if p = "d/a" then some .corrupt else none) 0 "a").1 = .error msg)
      ∧ ((FileSystemCache.mk "d" 5).lookup_cached_query
          (fun p => if p = "d/a" then some .corrupt else none) 0 "a").2 "d/a" = none)
    ∧ (((FileSystemCache.mk "d" 5).lookup_cached_query
          (fun p => if p = "d/b" then some (.valid ⟨0, "b", ⟨⟨none⟩⟩⟩) else none)
          100 "b").1 = .ok none)
    ∧ (∃ msg, ((FileSystemCache.mk "d" 5).lookup_cached_query
          (fun p => if p = "d/b" then some (.valid ⟨0, "x", ⟨⟨none⟩⟩⟩) else none)
          3 "b").1 = .error msg) := by
  have h₁ := (c10_lookup_deletes_bad_entries (FileSystemCache.mk "d" 5)
      (fun p => if p = "d/a" then some .corrupt else none) 0 "a").1 (by decide)
  have h₂ := (c10_lookup_deletes_bad_entries (FileSystemCache.mk "d" 5)
      (fun p => if p = "d/b" then some (.valid ⟨0, "b", ⟨⟨none⟩⟩⟩) else none) 100 "b").2.1
      ⟨0, "b", ⟨⟨none⟩⟩⟩ (by decide) (by decide)
  have h₃ := (c10_lookup_deletes_bad_entries (FileSystemCache.mk "d" 5)
      (fun p => if p = "d/b" then some (.valid ⟨0, "x", ⟨⟨none⟩⟩⟩) else none) 3 "b").2.2
      ⟨0, "x", ⟨⟨none⟩⟩⟩ (by decide) (by decide) (by decide)
  exact ⟨⟨h₁.1, h₁.2.1⟩, h₂.1, h₃.1⟩

end WapmResolver

namespace AsJs

/-! Embedding of `lib/api/src/js/as_js.rs`.

Floating-point payloads are opaque bit patterns (`F32`, `F64`, `V128` are
type parameters) and the numeric casts at the JS boundary (`as f64`,
`as i32`, ...) are oracle functions collected in `Casts`: the claims are
about which conversions succeed, not about numeric values.  A Rust panic
(`unwrap` on a non-number, `unimplemented!`) is modelled as `none`. -/

/-- `wasmer_types::Type` (spelled `Type` in the source). -/
inductive ValueType
  | i32 | i64 | f32 | f64 | v128 | funcref | externref
deriving DecidableEq, Repr

/-- `wasmer::Value`: scalars carry their payloads, `FuncRef` an optional
function handle, `ExternRef` an optional opaque reference. -/
inductive Value (F32 F64 V128 Fn Ext : Type)
  | i32 (x : Int)
  | i64 (x : Int)
  | f32 (x : F32)
  | f64 (x : F64)
  | v128 (x : V128)
  | funcRef (f : Option Fn)
  | externRef (e : Option Ext)

/-- A backend `JsValue` as the conversions see it: a number, a function
object, `null`, or something else. -/
inductive JsValue (F64 Fn : Type)
  | num (x : F64)
  | fnval (f : Fn)
  | null
  | other

variable {F32 F64 V128 Fn Ext : Type}

/-- `JsValue::as_f64`: `Some` exactly for numbers. -/
def JsValue.as_f64 : JsValue F64 Fn → Option F64
  | .num x => some x
  | _ => none

/-- The numeric casts used at the JS boundary. -/
structure Casts (F32 F64 V128 : Type) where
  i32_to_f64 : Int → F64
  i64_to_f64 : Int → F64
  f32_to_f64 : F32 → F64
  v128_to_f64 : V128 → F64
  f64_to_i32 : F64 → Int
  f64_to_i64 : F64 → Int
  f64_to_f32 : F64 → F32

/-- `param_from_js`: numbers convert to the four numeric types via
`as_f64().unwrap()` (a panic — `none` — on a non-number); every other
requested type hits `unimplemented!`. -/
def param_from_js (C : Casts F32 F64 V128) (ty : ValueType) (js_val : JsValue F64 Fn) :
    Option (Value F32 F64 V128 Fn Ext) :=
  match ty with
  | .i32 => (js_val.as_f64).map fun x => .i32 (C.f64_to_i32 x)
  | .i64 => (js_val.as_f64).map fun x => .i64 (C.f64_to_i64 x)
  | .f32 => (js_val.as_f64).map fun x => .f32 (C.f64_to_f32 x)
  | .f64 => (js_val.as_f64).map fun x => .f64 x
  | _ => none

/-- `<Value as AsJs>::as_jsvalue`: scalars become numbers,
`FuncRef(Some)` the function object, `FuncRef(None)` null, and `ExternRef`
hits `unimplemented!`. -/
def Value.as_jsvalue (C : Casts F32 F64 V128) :
    Value F32 F64 V128 Fn Ext → Option (JsValue F64 Fn)
  | .i32 x => some (.num (C.i32_to_f64 x))
  | .i64 x => some (.num (C.i64_to_f64 x))
  | .f32 x => some (.num (C.f32_to_f64 x))
  | .f64 x => some (.num x)
  | .v128 x => some (.num (C.v128_to_f64 x))
  | .funcRef (some f) => some (.fnval f)
  | .funcRef none => some .null
  | .externRef _ => none

/-- Trivial casts over unit payloads, for concrete evaluation. -/
def trivialCasts : Casts Unit Unit Unit :=
  ⟨fun _ => (), fun _ => (), fun _ => (), fun _ => (), fun _ => 0, fun _ => 0, fun _ => ()⟩

/-- C7 counterexample -- the claim asserts that both conversion directions
succeed for V128 and that converting an unsupported reference produces an
`Unsupported` error; in this code the backend-to-host direction for V128 is
`unimplemented!` (a panic, `none`, even on a well-formed numeric backend
value), and converting an `ExternRef` in either direction likewise panics
instead of returning any error value. -/
theorem c7_counterexample :
    @param_from_js Unit Unit Unit Unit Unit trivialCasts ValueType.v128
        (JsValue.num ()) = none
    ∧ @Value.as_jsvalue Unit Unit Unit Unit Unit trivialCasts
        (Value.externRef none) = none
    ∧ @param_from_js Unit Unit Unit Unit Unit trivialCasts ValueType.externref
        (JsValue.num ()) = none :=
  ⟨rfl, rfl, rfl⟩

/-- C7 (amended) -- Host-to-backend conversion is total for every
scalar-typed value (I32, I64, F32, F64 and V128 all become JS numbers);
backend-to-host conversion is total for I32, I64, F32 and F64 on numeric
backend values, but for V128 and for both reference types it panics
(`unimplemented!`), and no `Unsupported` error value exists on this path;
host-to-backend reference conversion sends `FuncRef(Some f)` to the
function object, `FuncRef(None)` to null, and panics on `ExternRef`. -/
theorem c7_scalar_conversion_totality {F32 F64 V128 Fn Ext : Type}
    (C : Casts F32 F64 V128) :
    (∀ x : Int, @Value.as_jsvalue F32 F64 V128 Fn Ext C (.i32 x)
        = some (.num (C.i32_to_f64 x)))
    ∧ (∀ x : Int, @Value.as_jsvalue F32 F64 V128 Fn Ext C (.i64 x)
        = some (.num (C.i64_to_f64 x)))
    ∧ (∀ x : F32, @Value.as_jsvalue F32 F64 V128 Fn Ext C (.f32 x)
        = some (.num (C.f32_to_f64 x)))
    ∧ (∀ x : F64, @Value.as_jsvalue F32 F64 V128 Fn Ext C (.f64 x)
        = some (.num x))
    ∧ (∀ x : V128, @Value.as_jsvalue F32 F64 V128 Fn Ext C (.v128 x)
        = some (.num (C.v128_to_f64 x)))
    ∧ (∀ x : F64, @param_from_js F32 F64 V128 Fn Ext C .i32 (.num x)
        = some (.i32 (C.f64_to_i32 x)))
    ∧ (∀ x : F64, @param_from_js F32 F64 V128 Fn Ext C .i64 (.num x)
        = some (.i64 (C.f64_to_i64 x)))
    ∧ (∀ x : F64, @param_from_js F32 F64 V128 Fn Ext C .f32 (.num x)
        = some (.f32 (C.f64_to_f32 x)))
    ∧ (∀ x : F64, @param_from_js F32 F64 V128 Fn Ext C .f64 (.num x)
        = some (.f64 x))
    ∧ (∀ js : JsValue F64 Fn, @param_from_js F32 F64 V128 Fn Ext C .v128 js = none)
    ∧ (∀ js : JsValue F64 Fn, @param_from_js F32 F64 V128 Fn Ext C .funcref js = none)
    ∧ (∀ js : JsValue F64 Fn, @param_from_js F32 F64 V128 Fn Ext C .externref js = none)
    ∧ (∀ f : Fn, @Value.as_jsvalue F32 F64 V128 Fn Ext C (.funcRef (some f))
        = some (.fnval f))
    ∧ (@Value.as_jsvalue F32 F64 V128 Fn Ext C (.funcRef none) = some .null)
    ∧ (∀ e : Option Ext, @Value.as_jsvalue F32 F64 V128 Fn Ext C (.externRef e) = none) :=
  ⟨fun _ => rfl, fun _ => rfl, fun _ => rfl, fun _ => rfl, fun _ => rfl,
   fun _ => rfl, fun _ => rfl, fun _ => rfl, fun _ => rfl,
   fun _ => rfl, fun _ => rfl, fun _ => rfl,
   fun _ => rfl, rfl, fun _ => rfl⟩

/-! ### The extern bridge (C8): `<Extern as AsJs>::from_jsvalue`.

The four extern type payloads (`FunctionType`, `MemoryType`, `GlobalType`,
`TableType`) and the four backend object classes (`js_sys::Function`,
`WebAssembly.Memory`, polyfill `Global`, `WebAssembly.Table`) are opaque
type parameters; `is_instance_of` is constructor inspection. -/

/-- The four extern kinds. -/
inductive ExternKind
  | function | memory | global | table
deriving DecidableEq, Repr

/-- `wasmer_types::ExternType`. -/
inductive ExternType (FT MT GT TT : Type)
  | function (t : FT)
  | memory (t : MT)
  | global (t : GT)
  | table (t : TT)

/-- A backend value as seen by `from_jsvalue`: an instance of one of the
four WebAssembly object classes, or anything else. -/
inductive JsExternValue (JF JM JG JT : Type)
  | function (v : JF)
  | memory (v : JM)
  | global (v : JG)
  | table (v : JT)
  | other

/-- `wasmer::Extern`: each variant wraps the backend object paired with its
declared type (`VMFunction::new`, `VMMemory::new`, ...). -/
inductive Extern (FT MT GT TT JF JM JG JT : Type)
  | function (vm : JF × FT)
  | memory (vm : JM × MT)
  | global (vm : JG × GT)
  | table (vm : JT × TT)

/-- The `JsError` produced on a kind mismatch: the formatted message names
the expected kind and carries the debug rendering of the received value. -/
structure JsTypeError (JF JM JG JT : Type) where
  expected : ExternKind
  received : JsExternValue JF JM JG JT

variable {FT MT GT TT JF JM JG JT : Type}

/-- The kind an `ExternType` declares. -/
def ExternType.kind : ExternType FT MT GT TT → ExternKind
  | .function _ => .function
  | .memory _ => .memory
  | .global _ => .global
  | .table _ => .table

/-- The kind a backend value reports (`is_instance_of`); `none` when it is
none of the four classes. -/
def JsExternValue.kind : JsExternValue JF JM JG JT → Option ExternKind
  | .function _ => some .function
  | .memory _ => some .memory
  | .global _ => some .global
  | .table _ => some .table
  | .other => none

/-- `<Extern as AsJs>::from_jsvalue`: check only the kind of the backend
value against the declared `ExternType`; on a match wrap it, otherwise
return the type error naming the expected kind and the received value. -/
def Extern.from_jsvalue (extern_type : ExternType FT MT GT TT)
    (val : JsExternValue JF JM JG JT) :
    Except (JsTypeError JF JM JG JT) (Extern FT MT GT TT JF JM JG JT) :=
  match extern_type with
  | .memory mt =>
    match val with
    | .memory m => .ok (.memory (m, mt))
    | _ => .error ⟨.memory, val⟩
  | .global gt =>
    match val with
    | .global g => .ok (.global (g, gt))
    | _ => .error ⟨.global, val⟩
  | .function ft =>
    match val with
    | .function f => .ok (.function (f, ft))
    | _ => .error ⟨.function, val⟩
  | .table tt =>
    match val with
    | .table t => .ok (.table (t, tt))
    | _ => .error ⟨.table, val⟩

/-- C8 -- For each `ExternType` kind K and every backend value whose
reported kind differs from K (including values of none of the four
classes), `Extern::from_jsvalue` returns the type-mismatch error naming the
expected kind K and the received value, and never constructs an `Extern`;
in particular expecting a Memory but receiving a Function yields the error
with expected kind Memory and the function value. -/
theorem c8_extern_kind_check :
    (∀ (et : ExternType FT MT GT TT) (val : JsExternValue JF JM JG JT),
        val.kind ≠ some et.kind →
        Extern.from_jsvalue et val = .error ⟨et.kind, val⟩)
    ∧ (∀ (mt : MT) (f : JF),
        Extern.from_jsvalue (@ExternType.memory FT MT GT TT mt)
            (@JsExternValue.function JF JM JG JT f)
          = .error ⟨.memory, .function f⟩) := by
  constructor
  · intro et val h
    cases et <;> cases val <;>
      simp_all [Extern.from_jsvalue, ExternType.kind, JsExternValue.kind]
  · intro mt f
    rfl

/-- Witness for C8 at unit payloads: a Memory import supplied with a
Function. -/
theorem c8_extern_kind_check_witness :
    Extern.from_jsvalue (@ExternType.memory Unit Unit Unit Unit ())
        (@JsExternValue.function Unit Unit Unit Unit ())
      = .error ⟨.memory, .function ()⟩ :=
  c8_extern_kind_check.1 (ExternType.memory ()) (JsExternValue.function ()) (by decide)

end AsJs

namespace BinFactory

/-! Embedding of `lib/wasix/src/bin_factory/binary_package.rs`.

SHA-256 is an external primitive, passed as an oracle `sha256` over byte
sequences; `ModuleHash` is the opaque type parameter `H`.  Command metadata
(`webc::metadata::Command`) is the opaque type parameter `M`.  A `OnceCell`
is an optional field threaded explicitly: each call returns its result
together with the possibly-initialized receiver.  `package_name.as_bytes()`
is modelled as the character codes of the name (the oracle only ever sees
it as a token).  The `webc_fs` field (an opaque filesystem handle unused by
the hash paths) is omitted. -/

/-- `BinaryPackageCommand`. -/
structure BinaryPackageCommand (M H : Type) where
  name : String
  metadata : M
  atom : List Nat
  hash_cell : Option H

/-- `BinaryPackageCommand::hash`: compute the SHA-256 of the atom bytes on
first access and memoize it. -/
def BinaryPackageCommand.hash {M H : Type} (sha256 : List Nat → H)
    (c : BinaryPackageCommand M H) : H × BinaryPackageCommand M H :=
  match c.hash_cell with
  | some h => (h, c)
  | none =>
    let h := sha256 c.atom
    (h, { c with hash_cell := some h })

/-- `BinaryPackage`. -/
structure BinaryPackage (M H : Type) where
  package_name : String
  when_cached : Option Nat
  entrypoint_cmd : Option String
  hash_cell : Option H
  commands : List (BinaryPackageCommand M H)
  uses : List String
  version : WapmResolver.Version
  module_memory_footprint : Nat
  file_system_memory_footprint : Nat

/-- `BinaryPackage::get_command`: first command with the given name. -/
def BinaryPackage.get_command {M H : Type} (p : BinaryPackage M H) (name : String) :
    Option (BinaryPackageCommand M H) :=
  p.commands.find? fun cmd => cmd.name = name

/-- `BinaryPackage::entrypoint_bytes`: the atom of the command the
entrypoint names, when both exist. -/
def BinaryPackage.entrypoint_bytes {M H : Type} (p : BinaryPackage M H) :
    Option (List Nat) :=
  p.entrypoint_cmd.bind fun name => (p.get_command name).map fun entry => entry.atom

/-- `str::as_bytes`, as character codes. -/
def strBytes (s : String) : List Nat :=
  s.data.map Char.toNat

/-- `BinaryPackage::hash`: on first access, the SHA-256 of the entrypoint
bytes when they resolve, else of the package name; memoized. -/
def BinaryPackage.hash {M H : Type} (sha256 : List Nat → H)
    (p : BinaryPackage M H) : H × BinaryPackage M H :=
  match p.hash_cell with
  | some h => (h, p)
  | none =>
    let h :=
      match p.entrypoint_bytes with
      | some entry => sha256 entry
      | none => sha256 (strBytes p.package_name)
    (h, { p with hash_cell := some h })

/-- C9 -- `BinaryPackageCommand::hash` computes the SHA-256 of the
command's atom bytes on the first call and returns the same memoized value
(and state) on every subsequent call; `BinaryPackage::hash` returns the
SHA-256 of the entrypoint command's atom when the entrypoint resolves to a
command, and otherwise the SHA-256 of the package name. -/
theorem c9_hash_discipline {M H : Type} (sha256 : List Nat → H) :
    (∀ c : BinaryPackageCommand M H, c.hash_cell = none →
        (c.hash sha256).1 = sha256 c.atom)
    ∧ (∀ (c : BinaryPackageCommand M H) (h : H), c.hash_cell = some h →
        c.hash sha256 = (h, c))
    ∧ (∀ c : BinaryPackageCommand M H,
        ((c.hash sha256).2).hash sha256 = ((c.hash sha256).1, (c.hash sha256).2))
    ∧ (∀ (p : BinaryPackage M H) (bs : List Nat), p.hash_cell = none →
        p.entrypoint_bytes = some bs → (p.hash sha256).1 = sha256 bs)
    ∧ (∀ p : BinaryPackage M H, p.hash_cell = none →
        p.entrypoint_bytes = none →
        (p.hash sha256).1 = sha256 (strBytes p.package_name))
    ∧ (∀ p : BinaryPackage M H,
        ((p.hash sha256).2).hash sha256 = ((p.hash sha256).1, (p.hash sha256).2)) := by
  refine ⟨?_, ?_, ?_, ?_, ?_, ?_⟩
  · intro c hc
    simp [BinaryPackageCommand.hash, hc]
  · intro c h hc
    simp [BinaryPackageCommand.hash, hc]
  · intro c
    cases hc : c.hash_cell with
    | some h => simp [BinaryPackageCommand.hash, hc]
    | none => simp [BinaryPackageCommand.hash, hc]
  · intro p bs hp he
    simp [BinaryPackage.hash, hp, he]
  · intro p hp he
    simp [BinaryPackage.hash, hp, he]
  · intro p
    cases hp : p.hash_cell with
    | some h => simp [BinaryPackage.hash, hp]
    | none => simp [BinaryPackage.hash, hp]

/-- Witness for C9: a command with a fresh cell hashes its atom and stays
memoized; a package whose entrypoint resolves hashes the entrypoint atom,
and one without an entrypoint hashes its name. -/
theorem c9_hash_discipline_witness :
    ((@BinaryPackageCommand.mk Unit Nat "run" () [1, 2, 3]
        none).hash List.length).1 = [1, 2, 3].length
    ∧ ((@BinaryPackage.mk Unit Nat "pkg" none (some "run") none
          [⟨"run", (), [1, 2, 3], none⟩] [] ⟨1, 0, 0⟩ 0 0).hash List.length).1
        = [1, 2, 3].length
    ∧ ((@BinaryPackage.mk Unit Nat "pkg" none none none
          [⟨"run", (), [1, 2, 3], none⟩] [] ⟨1, 0, 0⟩ 0 0).hash List.length).1
        = (strBytes "pkg").length :=
  ⟨(c9_hash_discipline List.length).1 _ rfl,
   (c9_hash_discipline List.length).2.2.2.1 _ [1, 2, 3] rfl (by decide),
   (c9_hash_discipline List.length).2.2.2.2.1 _ rfl rfl⟩

end BinFactory
